import Mathlib

/-!
Verification of the onecode-rs file engine and its group-metadata scanner.

The scanners in `src/file.rs` drive the native engine only through
`oneGoto` / `oneReadLine` / the current line's fields, so the skeleton
region of a ONE file is embedded as a list of decoded lines.  Per the
spec (section 4.3), `goto(type, i)` repositions the engine so that the
next `read_line` decodes object `i` itself; the end-of-input sentinel
(`oneReadLine` returning the NUL character) is modelled by the end of
the list.
-/

namespace OneCodeRS

/-- One decoded line of a ONE file: its one-character tag, its first
integer field (the length carried by `C` and `G` lines, read by
`self.int(0)`), and its string/list field (the name carried by `S`
lines, read by `self.string()`). -/
structure Line where
  tag : Char
  intField : Int
  strField : String
deriving DecidableEq, Repr

/-- The NUL character: `oneReadLine` returns it at end of input, and it
is the byte `CString::new` rejects. -/
def endOfInput : Char := '\x00'

/-- Embeds `OneFile::trim_sequence_name`: Rust
`name.split_whitespace().next().unwrap_or(name).to_string()` — the first
whitespace-delimited token of `name` (leading whitespace skipped), or
`name` itself when it has no such token.  Expressed over the character
list so it evaluates by kernel reduction; `Char.isWhitespace` agrees
with Rust `char::is_whitespace` on the ASCII range. -/
def trim_sequence_name (name : String) : String :=
  let tok := (name.toList.dropWhile Char.isWhitespace).takeWhile (fun c => ¬ c.isWhitespace)
  if tok.isEmpty then name else String.mk tok

/-- Number of lines with the given tag. -/
def countTag : List Line → Char → Nat
  | [], _ => 0
  | l :: rest, t => (if l.tag = t then 1 else 0) + countTag rest t

/-- Number of `g` (group) lines of the file. -/
def countG (file : List Line) : Nat := countTag file 'g'

/-- The 0-based position of the k-th (1-based) line with the given tag,
`none` when there are fewer than `k` such lines. -/
def nthTagIndex : List Line → Char → Nat → Option Nat
  | [], _, _ => none
  | l :: rest, t, k =>
    if l.tag = t then
      if k ≤ 1 then some 0
      else (nthTagIndex rest t (k - 1)).map (fun j => j + 1)
    else (nthTagIndex rest t k).map (fun j => j + 1)

/-- Modelled from the spec: `oneGoto(type, i)` (ONElib, not under src/)
"sets cursor bookkeeping so the next `read_line` decodes object `i`";
`i = 0` means start of the data section; it fails when `i` is out of
range.  Returns the 0-based line position the cursor is placed at, so
that the next read returns the object's own line. -/
def gotoIndex (file : List Line) (t : Char) (i : Int) : Option Nat :=
  if i = 0 then some 0
  else if i < 0 then none
  else nthTagIndex file t i.toNat

/-- The engine cursor as the scanners observe it: `line` is the number
of data lines already consumed (so also the 0-based position of the next
line to read), `lineType` the tag of the line read last. -/
structure Cursor where
  line : Nat
  lineType : Char
deriving DecidableEq, Repr

/-- Adds one consumed line to a loop result that also carries the lines
consumed and the tag last read. -/
def consume {α : Type} (r : α × Nat × Char) : α × Nat × Char :=
  (r.1, r.2.1 + 1, r.2.2)

/-- Embeds the read loop of `OneFile::get_all_sequence_names`
(file.rs:832-868).  Besides the map it returns how many lines the loop
consumed and the line type current when it stopped, which the
position-restoring `oneGoto` call at file.rs:870 uses. -/
def all_names_loop : List Line → Int → String → Bool → List (Int × String) × Nat × Char
  | [], _, _, _ => ([], 0, endOfInput)
  | l :: rest, cid, cur, first =>
    if l.tag = 'S' then
      consume (all_names_loop rest cid (trim_sequence_name l.strField) false)
    else if l.tag = 'C' then
      let r := all_names_loop rest (cid + 1) cur false
      ((cid, cur) :: r.1, r.2.1 + 1, r.2.2)
    else if l.tag = 'g' then
      consume (all_names_loop rest cid cur false)
    else if l.tag = 'A' ∨ l.tag = 'a' then
      if first then consume (all_names_loop rest cid cur false) else ([], 1, l.tag)
    else consume (all_names_loop rest cid cur false)

/-- Embeds `OneFile::get_all_sequence_names` (file.rs:821-874), cursor
effects included: `oneGoto('g', 1)`, the scan loop, then the best-effort
restore `oneGoto(current lineType, saved line number)` exactly as the
source issues it. -/
def get_all_sequence_names (file : List Line) (st : Cursor) :
    List (Int × String) × Cursor :=
  match gotoIndex file 'g' 1 with
  | none => ([], st)
  | some j =>
    let r := all_names_loop (file.drop j) 0 "" true
    match gotoIndex file r.2.2 (Int.ofNat st.line) with
    | none => (r.1, ⟨j + r.2.1, r.2.2⟩)
    | some k => (r.1, ⟨k, r.2.2⟩)

/-- Embeds the read loop of `OneFile::get_all_contig_offsets`
(file.rs:1136-1177); note the source breaks only on `A`, not on `a`. -/
def all_offsets_loop : List Line → Int → Int → Bool → List (Int × Int × Int)
  | [], _, _, _ => []
  | l :: rest, cid, spos, first =>
    if l.tag = 'S' then all_offsets_loop rest cid 0 false
    else if l.tag = 'G' then all_offsets_loop rest cid (spos + l.intField) false
    else if l.tag = 'C' then
      (cid, spos, l.intField) :: all_offsets_loop rest (cid + 1) (spos + l.intField) false
    else if l.tag = 'g' then
      if first then all_offsets_loop rest cid spos false
      else all_offsets_loop rest cid 0 false
    else if l.tag = 'A' then
      if first then all_offsets_loop rest cid spos false else []
    else all_offsets_loop rest cid spos false

/-- Embeds `OneFile::get_all_contig_offsets` (file.rs:1123-1184); the
returned bindings map each contig id to `(scaffold offset, length)`. -/
def get_all_contig_offsets (file : List Line) : List (Int × Int × Int) :=
  match gotoIndex file 'g' 1 with
  | none => []
  | some j => all_offsets_loop (file.drop j) 0 0 true

/-- Flushing a scaffold: every contig id collected for the current
scaffold is bound to the scaffold's accumulated length. -/
def flush_lengths (contigs : List Int) (len : Int) : List (Int × Int) :=
  contigs.map (fun c => (c, len))

/-- Embeds the read loop of `OneFile::get_all_sequence_lengths`
(file.rs:1045-1104). -/
def all_lengths_loop : List Line → Int → Int → List Int → Bool → List (Int × Int)
  | [], _, len, contigs, _ => flush_lengths contigs len
  | l :: rest, cid, len, contigs, first =>
    if l.tag = 'S' then flush_lengths contigs len ++ all_lengths_loop rest cid 0 [] false
    else if l.tag = 'G' then all_lengths_loop rest cid (len + l.intField) contigs false
    else if l.tag = 'C' then
      all_lengths_loop rest (cid + 1) (len + l.intField) (contigs ++ [cid]) false
    else if l.tag = 'g' then
      if first then all_lengths_loop rest cid len contigs false
      else flush_lengths contigs len ++ all_lengths_loop rest cid 0 [] false
    else if l.tag = 'A' ∨ l.tag = 'a' then
      if first then all_lengths_loop rest cid len contigs false
      else flush_lengths contigs len
    else all_lengths_loop rest cid len contigs false

/-- Embeds `OneFile::get_all_sequence_lengths` (file.rs:1034-1110). -/
def get_all_sequence_lengths (file : List Line) : List (Int × Int) :=
  match gotoIndex file 'g' 1 with
  | none => []
  | some j => all_lengths_loop (file.drop j) 0 0 [] true

/-- The triple of maps one `g` group contributes in
`get_all_groups_metadata`: names, scaffold lengths and offsets keyed by
contig id. -/
abbrev GroupMaps := List (Int × String) × List (Int × Int) × List (Int × Int × Int)

/-- Embeds the read loop of `OneFile::get_all_groups_metadata`
(file.rs:662-738).  The source keeps a per-group contig counter
(`group_contig_id`) that it resets to 0 at every new `g` line; the
current scaffold name is not reset at a group boundary, mirroring
file.rs:677-692. -/
def meta_loop : List Line → Int → List (Int × String) → List (Int × Int) →
    List (Int × Int × Int) → String → Int → List Int → Int → Bool → List GroupMaps
  | [], _, gnames, glens, goffs, _, slen, scontigs, _, _ =>
    if gnames.isEmpty then []
    else [(gnames, glens ++ flush_lengths scontigs slen, goffs)]
  | l :: rest, cid, gnames, glens, goffs, sname, slen, scontigs, spos, first =>
    if l.tag = 'g' then
      if first then meta_loop rest cid gnames glens goffs sname slen scontigs spos false
      else
        (gnames, glens ++ flush_lengths scontigs slen, goffs) ::
          meta_loop rest 0 [] [] [] sname 0 [] 0 false
    else if l.tag = 'S' then
      meta_loop rest cid gnames (glens ++ flush_lengths scontigs slen) goffs
        (trim_sequence_name l.strField) 0 [] 0 false
    else if l.tag = 'G' then
      meta_loop rest cid gnames glens goffs sname (slen + l.intField) scontigs
        (spos + l.intField) false
    else if l.tag = 'C' then
      meta_loop rest (cid + 1) (gnames ++ [(cid, sname)]) glens
        (goffs ++ [(cid, spos, l.intField)]) sname (slen + l.intField)
        (scontigs ++ [cid]) (spos + l.intField) false
    else if l.tag = 'A' ∨ l.tag = 'a' then
      if first then meta_loop rest cid gnames glens goffs sname slen scontigs spos false
      else if gnames.isEmpty then []
      else [(gnames, glens ++ flush_lengths scontigs slen, goffs)]
    else meta_loop rest cid gnames glens goffs sname slen scontigs spos false

/-- Embeds `OneFile::get_all_groups_metadata` (file.rs:645-743), map
outputs only (the cursor restore does not affect them). -/
def get_all_groups_metadata (file : List Line) : List GroupMaps :=
  match gotoIndex file 'g' 1 with
  | none => []
  | some j => meta_loop (file.drop j) 0 [] [] [] "" 0 [] 0 true

/-- Embeds the read loop of `OneFile::get_sequence_name`
(file.rs:596-629).  The source stores the `S` line's string field raw
(`name.to_string()`, file.rs:605-607), without `trim_sequence_name`, and
stops at the second `g` line. -/
def seq_name_loop : List Line → Int → Int → String → Bool → Option String
  | [], _, _, _, _ => none
  | l :: rest, seqId, cid, cur, first =>
    if l.tag = 'S' then seq_name_loop rest seqId cid l.strField false
    else if l.tag = 'C' then
      if cid = seqId then some cur else seq_name_loop rest seqId (cid + 1) cur false
    else if l.tag = 'g' ∨ l.tag = 'A' ∨ l.tag = 'a' then
      if first then seq_name_loop rest seqId cid cur false else none
    else seq_name_loop rest seqId cid cur false

/-- Embeds `OneFile::get_sequence_name` (file.rs:585-635), result value
only (its cursor restore does not affect the returned name). -/
def get_sequence_name (file : List Line) (seqId : Int) : Option String :=
  match gotoIndex file 'g' 1 with
  | none => none
  | some j => seq_name_loop (file.drop j) seqId 0 "" true

/-- Embeds the inner pre-pass loop shared by the three single-group
scanners (for example file.rs:764-772): starting at the line `oneGoto`
positioned, count `C` lines until the first `g`, `A`, `a` or
end-of-input — with no first-line exemption, unlike the main scan
loops. -/
def pre_pass_count : List Line → Int
  | [] => 0
  | l :: rest =>
    if l.tag = 'g' ∨ l.tag = 'A' ∨ l.tag = 'a' then 0
    else if l.tag = 'C' then pre_pass_count rest + 1
    else pre_pass_count rest

/-- Embeds the pre-pass of the single-group scanners (file.rs:760-774):
for every `prev_group` in `1..group_num`, position at that group and add
the `C` lines counted by the inner loop; a failed `oneGoto` skips the
body. -/
def starting_contig_id (file : List Line) (groupNum : Int) : Int :=
  (List.range (groupNum - 1).toNat).foldl
    (fun acc p =>
      match gotoIndex file 'g' (Int.ofNat p + 1) with
      | none => acc
      | some j => acc + pre_pass_count (file.drop j))
    0

/-- Embeds the read loop of `OneFile::get_group_sequence_names`
(file.rs:782-806). -/
def group_names_loop : List Line → Int → String → Bool → List (Int × String)
  | [], _, _, _ => []
  | l :: rest, cid, cur, first =>
    if l.tag = 'S' then group_names_loop rest cid (trim_sequence_name l.strField) false
    else if l.tag = 'C' then (cid, cur) :: group_names_loop rest (cid + 1) cur false
    else if l.tag = 'g' ∨ l.tag = 'A' ∨ l.tag = 'a' then
      if first then group_names_loop rest cid cur false else []
    else group_names_loop rest cid cur false

/-- Embeds `OneFile::get_group_sequence_names` (file.rs:755-811). -/
def get_group_sequence_names (file : List Line) (groupNum : Int) : List (Int × String) :=
  match gotoIndex file 'g' groupNum with
  | none => []
  | some j => group_names_loop (file.drop j) (starting_contig_id file groupNum) "" true

/-- Embeds the read loop of `OneFile::get_group_sequence_lengths`
(file.rs:911-951). -/
def group_lengths_loop : List Line → Int → Int → List Int → Bool → List (Int × Int)
  | [], _, len, contigs, _ => flush_lengths contigs len
  | l :: rest, cid, len, contigs, first =>
    if l.tag = 'S' then flush_lengths contigs len ++ group_lengths_loop rest cid 0 [] false
    else if l.tag = 'G' then group_lengths_loop rest cid (len + l.intField) contigs false
    else if l.tag = 'C' then
      group_lengths_loop rest (cid + 1) (len + l.intField) (contigs ++ [cid]) false
    else if l.tag = 'g' ∨ l.tag = 'A' ∨ l.tag = 'a' then
      if first then group_lengths_loop rest cid len contigs false
      else flush_lengths contigs len
    else group_lengths_loop rest cid len contigs false

/-- Embeds `OneFile::get_group_sequence_lengths` (file.rs:883-956). -/
def get_group_sequence_lengths (file : List Line) (groupNum : Int) : List (Int × Int) :=
  match gotoIndex file 'g' groupNum with
  | none => []
  | some j => group_lengths_loop (file.drop j) (starting_contig_id file groupNum) 0 [] true

/-- Embeds the read loop of `OneFile::get_group_contig_offsets`
(file.rs:992-1019). -/
def group_offsets_loop : List Line → Int → Int → Bool → List (Int × Int × Int)
  | [], _, _, _ => []
  | l :: rest, cid, spos, first =>
    if l.tag = 'S' then group_offsets_loop rest cid 0 false
    else if l.tag = 'G' then group_offsets_loop rest cid (spos + l.intField) false
    else if l.tag = 'C' then
      (cid, spos, l.intField) :: group_offsets_loop rest (cid + 1) (spos + l.intField) false
    else if l.tag = 'g' ∨ l.tag = 'A' ∨ l.tag = 'a' then
      if first then group_offsets_loop rest cid spos false else []
    else group_offsets_loop rest cid spos false

/-- Embeds `OneFile::get_group_contig_offsets` (file.rs:965-1024). -/
def get_group_contig_offsets (file : List Line) (groupNum : Int) : List (Int × Int × Int) :=
  match gotoIndex file 'g' groupNum with
  | none => []
  | some j => group_offsets_loop (file.drop j) (starting_contig_id file groupNum) 0 true

/-- Embeds the read loop of `OneFile::read_gdb_metadata`
(file.rs:1210-1255): a flat top-level pass with no group handling. -/
def gdb_loop : List Line → Int → Int → String → Int → List Int →
    List (Int × String) × List (Int × Int) × List (Int × Int × Int)
  | [], _, _, _, slen, contigs => ([], flush_lengths contigs slen, [])
  | l :: rest, cid, spos, sname, slen, contigs =>
    if l.tag = 'S' then
      let r := gdb_loop rest cid 0 (trim_sequence_name l.strField) 0 []
      (r.1, flush_lengths contigs slen ++ r.2.1, r.2.2)
    else if l.tag = 'G' then
      gdb_loop rest cid (spos + l.intField) sname (slen + l.intField) contigs
    else if l.tag = 'C' then
      let r := gdb_loop rest (cid + 1) (spos + l.intField) sname (slen + l.intField)
        (contigs ++ [cid])
      ((cid, sname) :: r.1, r.2.1, (cid, spos, l.intField) :: r.2.2)
    else gdb_loop rest cid spos sname slen contigs

/-- Embeds `OneFile::read_gdb_metadata` (file.rs:1196-1258) applied to
an already opened standalone GDB file, given as its line list. -/
def read_gdb_metadata (file : List Line) :
    List (Int × String) × List (Int × Int) × List (Int × Int × Int) :=
  gdb_loop file 0 0 "" 0 []

/-- The raw field array of the current line as `OneFile::int` reaches
it: `mem i` is the 64-bit word at slot `i` of the native `field`
pointer, adjacent memory included; `nField` is how many field slots the
current line type actually owns per the schema. -/
structure FieldMem where
  mem : Nat → Int
  nField : Nat

/-- Embeds `OneFile::int` (file.rs:348-353): `(*fields.add(field)).i`,
an unconditional read of slot `field` with no comparison against the
line type's field count (`real` and `char` at file.rs:356-369 are the
same access at another union member). -/
def int (f : FieldMem) (field : Nat) : Int := f.mem field

/-- Embeds `OneFile::set_int` (file.rs:372-377): an unconditional write
of slot `field` (`set_real` and `set_char` are the same shape). -/
def set_int (f : FieldMem) (field : Nat) (value : Int) : FieldMem :=
  { f with mem := fun i => if i = field then value else f.mem i }

/-- Embeds the `OneError` enum of `src/error.rs` (string payloads kept
where a claim inspects them). -/
inductive OneError where
  | OpenFailed : String → OneError
  | CloseFailed
  | ReadFailed
  | WriteFailed
  | InvalidFormat : String → OneError
  | SchemaError : String → OneError
  | NullPointer
  | InvalidUtf8
  | InvalidCString
  | Other : String → OneError
deriving DecidableEq, Repr

/-- Whether a Rust string has an interior NUL byte, the condition under
which `CString::new` fails and the `?` in the wrappers returns
`OneError::InvalidCString`. -/
def strHasNul (s : String) : Bool := s.toList.contains endOfInput

/-- Whether Rust `s.trim().is_empty()` holds: `str::trim` strips leading
and trailing whitespace, so the result is empty exactly when every
character of `s` is whitespace. -/
def trimIsEmpty (s : String) : Bool := s.toList.all Char.isWhitespace

/-- Modelled from the spec: the outcome of the native `oneFileOpenRead`
(ONElib, not under src/) — `opened` is false when the file is absent,
unreadable, fails schema validation or mismatches the expected type, and
`errStr` is what `oneErrorString` then holds (`none` for a null error
string; `to_string_lossy` of the non-null case is the string itself). -/
structure NativeOpen where
  opened : Bool
  errStr : Option String

/-- Embeds `OneFile::open_read` (file.rs:44-76): the `CString`
conversions of the path and the optional expected type, then the native
open, and on failure the `OpenFailed` message built at file.rs:58-69
(the path alone when the native message trims to nothing, otherwise
`path ++ ": " ++ message`).  A unit handle stands for the constructed
`OneFile`. -/
def open_read (path : String) (fileType : Option String) (native : NativeOpen) :
    Except OneError Unit :=
  if strHasNul path then .error .InvalidCString
  else if (fileType.map strHasNul).getD false then .error .InvalidCString
  else if native.opened then .ok ()
  else
    let errMsg := match native.errStr with
      | some s => s
      | none => "Unknown error"
    let msg := if trimIsEmpty errMsg then path else path ++ ": " ++ errMsg
    .error (.OpenFailed msg)

/-- The write-handle state the header rule depends on: whether any data
line has been written on the handle. -/
structure WState where
  dataWritten : Bool
deriving DecidableEq, Repr

/-- Modelled from the spec: the native `oneAddProvenance` (ONElib, not
under src/) "returns false once any `write_line` has been issued on that
handle; returns true before". -/
def oneAddProvenance (st : WState) : Bool := !st.dataWritten

/-- Modelled from the spec: the native `oneAddReference`, same header
rule as `oneAddProvenance`. -/
def oneAddReference (st : WState) : Bool := !st.dataWritten

/-- Embeds `OneFile::write_line` (file.rs:189-198) at the granularity
the header rule observes: after it, data has been written. -/
def write_line (st : WState) (_lineType : Char) (_listLen : Int) : WState :=
  { st with dataWritten := true }

/-- Embeds `OneFile::add_provenance` (file.rs:214-230): three fallible
`CString` conversions (the constant `"%s"` format never fails), then the
native call wrapped in `Ok`. -/
def add_provenance (st : WState) (prog version command : String) :
    Except OneError Bool :=
  if strHasNul prog then .error .InvalidCString
  else if strHasNul version then .error .InvalidCString
  else if strHasNul command then .error .InvalidCString
  else .ok (oneAddProvenance st)

/-- Embeds `OneFile::add_reference` (file.rs:235-242). -/
def add_reference (st : WState) (filename : String) (_count : Int) :
    Except OneError Bool :=
  if strHasNul filename then .error .InvalidCString
  else .ok (oneAddReference st)

/-- The `A` entry of the native `info` array as
`get_alignment_byte_offset` reads it: `index` is the loaded byte-offset
array (its length is the native `indexSize`), `none` when the `index`
pointer is null. -/
structure LineInfoA where
  index : Option (List Int)

/-- An open handle as `get_alignment_byte_offset` observes it: `infoA`
is `info['A']`, `none` when that pointer is null. -/
structure AFileState where
  infoA : Option LineInfoA

/-- Embeds `OneFile::get_alignment_byte_offset` (file.rs:1262-1271):
null checks on `info['A']` and its `index`, a range check of the index
against `indexSize`, then the read of entry `alignment_index`. -/
def get_alignment_byte_offset (st : AFileState) (alignmentIndex : Int) : Option Int :=
  match st.infoA with
  | none => none
  | some li =>
    match li.index with
    | none => none
    | some idx =>
      if alignmentIndex < 0 ∨ alignmentIndex ≥ (idx.length : Int) then none
      else idx.get? alignmentIndex.toNat

/-- The two-group skeleton of spec section 8, followed by the `A` line
that opens the alignment section: group 1 is scaffold `chrA` with
contigs of lengths 100 and 50 separated by a gap of 10, group 2 is
scaffold `chrB` with one contig of length 200. -/
def specFile : List Line :=
  [⟨'g', 0, ""⟩, ⟨'S', 0, "chrA"⟩, ⟨'C', 100, ""⟩, ⟨'G', 10, ""⟩, ⟨'C', 50, ""⟩,
   ⟨'g', 0, ""⟩, ⟨'S', 0, "chrB"⟩, ⟨'C', 200, ""⟩, ⟨'A', 0, ""⟩]

/-- A one-group file whose scaffold line carries a free-text description
after the sequence id. -/
def descFile : List Line :=
  [⟨'g', 0, ""⟩, ⟨'S', 0, "chrA description"⟩, ⟨'C', 100, ""⟩]

/-- A current line with two schema fields whose adjacent memory holds
the word 42 in every slot past the field array. -/
def memHigh : FieldMem := ⟨fun i => if i < 2 then 7 else 42, 2⟩

/-- The same two field values as `memHigh`, but adjacent memory holding
0 instead. -/
def memLow : FieldMem := ⟨fun i => if i < 2 then 7 else 0, 2⟩

/-- C1.  The single-group scanners are meant to start contig numbering
at the count of `C` records in groups `1..n-1`, but the pre-pass loop
(file.rs:764-772) breaks on the very first line it reads — the previous
group's own `g` line, which `oneGoto` positions it at — so it always
counts zero: scanning group 2 of the spec section 8 file reports contig
ID 0, not 2. -/
theorem c1_single_group_ids_not_global :
    starting_contig_id specFile 2 = 0 ∧
      get_group_sequence_names specFile 2 = [(0, "chrB")] ∧
      get_group_sequence_lengths specFile 2 = [(0, 200)] ∧
      get_group_contig_offsets specFile 2 = [(0, 0, 200)] ∧
      (get_group_sequence_names specFile 2).lookup 2 = none := by
  decide

/-- C3 counterexample.  On the two-group file of spec section 8,
`get_all_groups_metadata` keys its second group's maps by contig ID 0
again (the per-group counter reset at file.rs:691), so its contig IDs do
not increase monotonically across groups. -/
theorem c3_metadata_resets_ids :
    (get_all_groups_metadata specFile).map (fun g => g.1.map Prod.fst) = [[0, 1], [0]] := by
  decide

/-- C4 counterexample.  `get_sequence_name` stores the `S` line's string
field raw (file.rs:605-607), so on a scaffold line reading
`chrA description` it returns the whole field, not the
first-token truncation `chrA` that `trim_sequence_name` yields. -/
theorem c4_get_sequence_name_untrimmed :
    get_sequence_name descFile 0 = some "chrA description" ∧
      trim_sequence_name "chrA description" = "chrA" := by
  constructor
  · rfl
  · rfl

/-- C5.  On the spec section 8 file, with the cursor saved at line 3 on
a `C` line, `get_all_sequence_names` ends its scan on the `A` line and
then issues `oneGoto('A', 3)` — the line type where the scan stopped and
the saved line number used as an object index (file.rs:870).  The file
has one `A` object, so the goto fails and the cursor stays at the scan
end: the pre-call position is not restored even though goto is
supported. -/
theorem c5_cursor_not_restored :
    (get_all_sequence_names specFile ⟨3, 'C'⟩).2 = ⟨9, 'A'⟩ ∧
      (⟨9, 'A'⟩ : Cursor) ≠ (⟨3, 'C'⟩ : Cursor) := by
  constructor
  · rfl
  · decide

/-- C6.  `OneFile::int` performs no bounds check: on a line type with 2
fields, field number 5 returns whatever the raw memory past the field
array holds (42 on one state, 0 on another state with identical field
values), instead of failing fast; `set_int` likewise writes past the
array. -/
theorem c6_field_access_unchecked :
    int memHigh 5 = 42 ∧ int memLow 5 = 0 ∧
      memHigh.nField = 2 ∧ memLow.nField = 2 ∧
      memHigh.mem 0 = memLow.mem 0 ∧ memHigh.mem 1 = memLow.mem 1 ∧
      (set_int memLow 7 99).mem 7 = 99 := by
  decide

/-- C8 counterexample.  A post-data `add_provenance` call whose program
string has an interior NUL byte returns `Err(InvalidCString)` from the
`CString::new(...)?` at file.rs:215, not the `Ok(false)` sentinel. -/
theorem c8_post_data_err_on_nul :
    add_provenance ⟨true⟩ "a\x00b" "1.0" "cmd" = .error .InvalidCString := by
  rfl

/-- Splitting `countG` at a cons cell. -/
theorem countG_cons_eq_zero {p : Line} {pre : List Line} (h : countG (p :: pre) = 0) :
    p.tag ≠ 'g' ∧ countG pre = 0 := by
  simp only [countG, countTag] at h
  by_cases hp : p.tag = 'g'
  · simp [hp] at h
  · simp [hp] at h
    exact ⟨hp, h⟩

/-- When a prefix has no `g` line, the first `g` object of the whole
file is the head of what follows the prefix. -/
theorem nthTagIndex_first_g {l : Line} (hl : l.tag = 'g') :
    ∀ (pre rest : List Line), countG pre = 0 →
      nthTagIndex (pre ++ l :: rest) 'g' 1 = some pre.length := by
  intro pre
  induction pre with
  | nil =>
    intro rest _
    simp [nthTagIndex, hl]
  | cons p pre ih =>
    intro rest h
    obtain ⟨hp, hpre⟩ := countG_cons_eq_zero h
    simp only [List.cons_append, nthTagIndex, hp, if_false]
    show Option.map (fun j => j + 1) (nthTagIndex (pre ++ l :: rest) 'g' 1) =
      some (p :: pre).length
    rw [ih rest hpre]
    rfl

/-- `oneGoto('g', 1)` on a file whose data section is a `g`-free prefix
followed by a group region positions at the region's first line. -/
theorem gotoIndex_first_g {l : Line} (hl : l.tag = 'g') (pre rest : List Line)
    (h : countG pre = 0) :
    gotoIndex (pre ++ l :: rest) 'g' 1 = some pre.length := by
  unfold gotoIndex
  norm_num
  exact nthTagIndex_first_g hl pre rest h

/-- Evaluation of the `get_all_sequence_names` loop over the spec
section 8 skeleton, whatever follows the alignment line. -/
theorem all_names_loop_on_spec (post : List Line) :
    all_names_loop (specFile ++ post) 0 "" true =
      ([(0, "chrA"), (1, "chrA"), (2, "chrB")], 9, 'A') := by
  rfl

/-- Evaluation of the `get_all_sequence_lengths` loop over the spec
section 8 skeleton, whatever follows the alignment line. -/
theorem all_lengths_loop_on_spec (post : List Line) :
    all_lengths_loop (specFile ++ post) 0 0 [] true =
      [(0, 160), (1, 160), (2, 200)] := by
  rfl

/-- Evaluation of the `get_all_contig_offsets` loop over the spec
section 8 skeleton, whatever follows the alignment line. -/
theorem all_offsets_loop_on_spec (post : List Line) :
    all_offsets_loop (specFile ++ post) 0 0 true =
      [(0, 0, 100), (1, 110, 50), (2, 0, 200)] := by
  rfl

/-- C2.  For every file whose data section is the spec section 8
two-group skeleton (any `g`-free header region before it, anything after
its alignment line), the all-groups scan maps contig IDs 0 and 1 to
`chrA` with offsets `(0,100)` and `(110,50)` and total scaffold length
160 (the gap of 10 counted in both accumulators), and contig ID 2 to
`chrB` with offset `(0,200)` and total length 200. -/
theorem c2_two_group_all_scan (pre post : List Line) (st : Cursor)
    (h : countG pre = 0) :
    (get_all_sequence_names (pre ++ (specFile ++ post)) st).1 =
        [(0, "chrA"), (1, "chrA"), (2, "chrB")] ∧
      get_all_sequence_lengths (pre ++ (specFile ++ post)) =
        [(0, 160), (1, 160), (2, 200)] ∧
      get_all_contig_offsets (pre ++ (specFile ++ post)) =
        [(0, 0, 100), (1, 110, 50), (2, 0, 200)] := by
  have hshape : pre ++ (specFile ++ post) =
      pre ++ (Line.mk 'g' 0 "" :: (specFile.tail ++ post)) := by
    simp [specFile]
  have hgoto : gotoIndex (pre ++ (specFile ++ post)) 'g' 1 = some pre.length := by
    rw [hshape]
    exact gotoIndex_first_g rfl pre (specFile.tail ++ post) h
  have hdrop : (pre ++ (specFile ++ post)).drop pre.length = specFile ++ post :=
    List.drop_left pre (specFile ++ post)
  refine ⟨?_, ?_, ?_⟩
  · unfold get_all_sequence_names
    rw [hgoto]
    simp only [hdrop, all_names_loop_on_spec]
    cases hr : gotoIndex (pre ++ (specFile ++ post)) 'A' (Int.ofNat st.line) <;> simp [hr]
  · unfold get_all_sequence_lengths
    rw [hgoto]
    simp only [hdrop, all_lengths_loop_on_spec]
  · unfold get_all_contig_offsets
    rw [hgoto]
    simp only [hdrop, all_offsets_loop_on_spec]

/-- C2 witness: the theorem applied to the skeleton standing alone. -/
theorem c2_two_group_all_scan_witness :
    countG ([] : List Line) = 0 ∧
      ((get_all_sequence_names ([] ++ (specFile ++ [])) ⟨0, 'g'⟩).1 =
          [(0, "chrA"), (1, "chrA"), (2, "chrB")] ∧
        get_all_sequence_lengths ([] ++ (specFile ++ [])) =
          [(0, 160), (1, 160), (2, 200)] ∧
        get_all_contig_offsets ([] ++ (specFile ++ [])) =
          [(0, 0, 100), (1, 110, 50), (2, 0, 200)]) :=
  ⟨rfl, c2_two_group_all_scan [] [] ⟨0, 'g'⟩ rfl⟩

/-- Looking up a tag occurrence past the count fails. -/
theorem nthTagIndex_eq_none :
    ∀ (ls : List Line) (t : Char) (k : Nat), countTag ls t < k → nthTagIndex ls t k = none := by
  intro ls
  induction ls with
  | nil => intro t k _; rfl
  | cons l rest ih =>
    intro t k h
    simp only [countTag] at h
    simp only [nthTagIndex]
    by_cases hl : l.tag = t
    · simp only [hl, if_true, eq_self_iff_true] at h ⊢
      have hk : ¬ k ≤ 1 := by omega
      simp only [if_pos rfl, if_neg hk]
      rw [ih t (k - 1) (by omega)]
      rfl
    · simp only [hl, if_false] at h ⊢
      rw [ih t k (by omega)]
      rfl

/-- `oneGoto` fails on an object number past the count of that tag. -/
theorem gotoIndex_eq_none {file : List Line} {t : Char} {k : Int}
    (h : (countTag file t : Int) < k) : gotoIndex file t k = none := by
  unfold gotoIndex
  have hk0 : ¬ k = 0 := by omega
  have hkn : ¬ k < 0 := by omega
  simp only [hk0, hkn, if_false]
  exact nthTagIndex_eq_none file t k.toNat (by omega)

/-- C9.  A single-group scanner called with a group number greater than
the number of `g` groups returns an empty map (the final `oneGoto`
fails and the scan body never runs), and on a file with no `g` section
every all-groups scanner returns empty maps; none of these paths
produces an error. -/
theorem c9_out_of_range_empty (file : List Line) (st : Cursor) (groupNum : Int) :
    ((countG file : Int) < groupNum →
        get_group_sequence_names file groupNum = [] ∧
        get_group_sequence_lengths file groupNum = [] ∧
        get_group_contig_offsets file groupNum = []) ∧
      (countG file = 0 →
        (get_all_sequence_names file st).1 = [] ∧
        get_all_sequence_lengths file = [] ∧
        get_all_contig_offsets file = [] ∧
        get_all_groups_metadata file = []) := by
  constructor
  · intro h
    have hg : gotoIndex file 'g' groupNum = none := gotoIndex_eq_none h
    refine ⟨?_, ?_, ?_⟩ <;>
      simp [get_group_sequence_names, get_group_sequence_lengths,
        get_group_contig_offsets, hg]
  · intro h
    have hg : gotoIndex file 'g' 1 = none := by
      apply gotoIndex_eq_none
      simp only [countG] at h
      omega
    refine ⟨?_, ?_, ?_, ?_⟩ <;>
      simp [get_all_sequence_names, get_all_sequence_lengths,
        get_all_contig_offsets, get_all_groups_metadata, hg]

/-- C9 witness: group 2 of a one-group file, and the all-groups scan of
a file with no groups. -/
theorem c9_out_of_range_empty_witness :
    ((countG descFile : Int) < 2 →
        get_group_sequence_names descFile 2 = [] ∧
        get_group_sequence_lengths descFile 2 = [] ∧
        get_group_contig_offsets descFile 2 = []) ∧
      (countG descFile = 0 →
        (get_all_sequence_names descFile ⟨0, 'g'⟩).1 = [] ∧
        get_all_sequence_lengths descFile = [] ∧
        get_all_contig_offsets descFile = [] ∧
        get_all_groups_metadata descFile = []) :=
  c9_out_of_range_empty descFile ⟨0, 'g'⟩ 2

/-- C7.  When the native open fails, `open_read` returns
`Err(OneError::OpenFailed(msg))` with `msg` the requested path followed
by a (possibly empty) suffix holding the native message, so `msg`
carries the exact path string; no handle is produced.  Paths and
expected-type strings are NUL-free, as any string convertible to an OS
path must be. -/
theorem c7_open_read_openfailed_path (path : String) (fileType : Option String)
    (native : NativeOpen) (hp : strHasNul path = false)
    (hf : (fileType.map strHasNul).getD false = false)
    (hn : native.opened = false) :
    ∃ s, open_read path fileType native = .error (.OpenFailed (path ++ s)) := by
  unfold open_read
  rw [hp, hf, hn]
  simp only [Bool.false_eq_true, if_false]
  cases herr : native.errStr with
  | none =>
    refine ⟨": Unknown error", ?_⟩
    simp only [herr]
    rw [show trimIsEmpty "Unknown error" = false from by decide]
    simp only [Bool.false_eq_true, if_false]
    rw [String.append_assoc,
      show (": " ++ "Unknown error" : String) = ": Unknown error" from by decide]
  | some s =>
    simp only [herr]
    by_cases ht : trimIsEmpty s
    · refine ⟨"", ?_⟩
      simp only [ht, if_true, String.append_empty]
    · refine ⟨": " ++ s, ?_⟩
      simp only [ht, Bool.false_eq_true, if_false]
      rw [String.append_assoc]

/-- C7 witness: opening a nonexistent path. -/
theorem c7_open_read_openfailed_path_witness :
    strHasNul "/nope" = false ∧
      ((Option.none : Option String).map strHasNul).getD false = false ∧
      (NativeOpen.mk false (some "No such file or directory")).opened = false ∧
      ∃ s, open_read "/nope" none ⟨false, some "No such file or directory"⟩ =
        .error (.OpenFailed ("/nope" ++ s)) :=
  ⟨by decide, rfl, rfl,
    c7_open_read_openfailed_path "/nope" none ⟨false, some "No such file or directory"⟩
      (by decide) rfl rfl⟩

/-- C10.  `get_alignment_byte_offset(i)` returns a value exactly when
the `A` byte-offset index is loaded and `0 ≤ i < indexSize`, and then
the value is entry `i` of the index; a negative `i`, an `i` at or past
`indexSize`, a null `info['A']` or a null index pointer all yield
`None` without any out-of-range read. -/
theorem c10_alignment_offset_range (st : AFileState) (i : Int) :
    ((∃ v, get_alignment_byte_offset st i = some v) ↔
        ∃ li idx, st.infoA = some li ∧ li.index = some idx ∧
          0 ≤ i ∧ i < (idx.length : Int)) ∧
      ∀ v, get_alignment_byte_offset st i = some v →
        ∃ li idx, st.infoA = some li ∧ li.index = some idx ∧
          idx.get? i.toNat = some v := by
  cases hA : st.infoA with
  | none => simp [get_alignment_byte_offset, hA]
  | some li =>
    cases hI : li.index with
    | none => simp [get_alignment_byte_offset, hA, hI]
    | some idx =>
      by_cases hr : i < 0 ∨ i ≥ (idx.length : Int)
      · have hnone : get_alignment_byte_offset st i = none := by
          simp [get_alignment_byte_offset, hA, hI, hr]
        rw [hnone]
        constructor
        · constructor
          · rintro ⟨v, hv⟩
            cases hv
          · rintro ⟨li2, idx2, hli, hidx, h0, hlen⟩
            cases hli
            rw [hI, Option.some.injEq] at hidx
            subst hidx
            omega
        · intro v hv
          cases hv
      · push_neg at hr
        have hlt : i.toNat < idx.length := by omega
        have hsome : get_alignment_byte_offset st i = idx.get? i.toNat := by
          have hc : ¬ (i < 0 ∨ i ≥ (idx.length : Int)) := by omega
          simp [get_alignment_byte_offset, hA, hI, hc]
        have hget : idx.get? i.toNat = some (idx.get ⟨i.toNat, hlt⟩) :=
          List.get?_eq_get hlt
        rw [hsome, hget]
        constructor
        · constructor
          · intro _
            exact ⟨li, idx, rfl, hI, hr.1, hr.2⟩
          · intro _
            exact ⟨idx.get ⟨i.toNat, hlt⟩, rfl⟩
        · intro v hv
          exact ⟨li, idx, rfl, hI, hget.trans hv⟩

/-- C8 amended.  With every string argument free of interior NUL bytes,
`add_provenance` and `add_reference` return `Ok(!dataWritten)`: `true`
before the first `write_line` on the handle, `false` after any
`write_line`; an argument with an interior NUL byte instead fails the
`CString` conversion with `Err(InvalidCString)`. -/
theorem c8_amended_header_sentinel (st : WState) (prog version command filename : String)
    (count : Int) (lineType : Char) (listLen : Int) :
    (strHasNul prog = false → strHasNul version = false → strHasNul command = false →
        add_provenance st prog version command = .ok (!st.dataWritten) ∧
        add_provenance (write_line st lineType listLen) prog version command = .ok false) ∧
      (strHasNul filename = false →
        add_reference st filename count = .ok (!st.dataWritten) ∧
        add_reference (write_line st lineType listLen) filename count = .ok false) ∧
      (strHasNul prog = true →
        add_provenance st prog version command = .error .InvalidCString) := by
  refine ⟨fun hp hv hc => ⟨?_, ?_⟩, fun hf => ⟨?_, ?_⟩, fun hp => ?_⟩ <;>
    simp [add_provenance, add_reference, write_line, oneAddProvenance, oneAddReference, *]

/-- The list of `n` consecutive contig IDs starting at `b`. -/
def consecIds (b : Int) (n : Nat) : List Int :=
  (List.range n).map (fun j : Nat => b + (j : Int))

/-- Peeling the first consecutive ID. -/
theorem consecIds_cons (b : Int) (n : Nat) :
    consecIds b (n + 1) = b :: consecIds (b + 1) n := by
  unfold consecIds
  rw [List.range_succ_eq_map, List.map_cons, List.map_map]
  congr 1
  · simp
  · have hfun : ((fun j : Nat => b + (j : Int)) ∘ Nat.succ) =
        (fun j : Nat => b + 1 + (j : Int)) := by
      funext j
      simp only [Function.comp, Nat.succ_eq_add_one]
      push_cast
      ring
    rw [hfun]

/-- Appending the next consecutive ID. -/
theorem consecIds_snoc (b : Int) (n : Nat) :
    consecIds b (n + 1) = consecIds b n ++ [b + n] := by
  unfold consecIds
  rw [List.range_succ, List.map_append]
  rfl

/-- Consecutive IDs split at any point. -/
theorem consecIds_append (b : Int) (n m : Nat) :
    consecIds b (n + m) = consecIds b n ++ consecIds (b + n) m := by
  induction m with
  | zero => simp [consecIds]
  | succ m ih =>
    rw [show n + (m + 1) = (n + m) + 1 from rfl, consecIds_snoc, ih, consecIds_snoc,
      List.append_assoc]
    have hc : b + (n : Int) + (m : Int) = b + ((n + m : Nat) : Int) := by
      push_cast
      ring
    rw [hc]

/-- Keys of a flushed scaffold are exactly the collected contig IDs. -/
theorem flush_lengths_keys (contigs : List Int) (len : Int) :
    (flush_lengths contigs len).map Prod.fst = contigs := by
  induction contigs with
  | nil => rfl
  | cons c cs ih =>
    show c :: (flush_lengths cs len).map Prod.fst = c :: cs
    rw [ih]

/-- The map of a `consume` step is the inner map. -/
theorem consume_fst {α : Type} (r : α × Nat × Char) : (consume r).1 = r.1 := rfl

/-- The `get_all_sequence_names` loop hands out consecutive IDs from its
starting counter, never resetting. -/
theorem all_names_loop_keys (ls : List Line) :
    ∀ (cid : Int) (cur : String) (first : Bool),
      ∃ n, ((all_names_loop ls cid cur first).1).map Prod.fst = consecIds cid n := by
  induction ls with
  | nil => exact fun cid cur first => ⟨0, rfl⟩
  | cons l rest ih =>
    intro cid cur first
    by_cases hS : l.tag = 'S'
    · obtain ⟨n, hn⟩ := ih cid (trim_sequence_name l.strField) false
      refine ⟨n, ?_⟩
      simp only [all_names_loop, if_pos hS, consume_fst]
      exact hn
    by_cases hC : l.tag = 'C'
    · obtain ⟨n, hn⟩ := ih (cid + 1) cur false
      refine ⟨n + 1, ?_⟩
      simp only [all_names_loop, if_neg hS, if_pos hC]
      show List.map Prod.fst ((cid, cur) :: (all_names_loop rest (cid + 1) cur false).1) =
        consecIds cid (n + 1)
      rw [List.map_cons, hn, consecIds_cons]
    by_cases hg : l.tag = 'g'
    · obtain ⟨n, hn⟩ := ih cid cur false
      refine ⟨n, ?_⟩
      simp only [all_names_loop, if_neg hS, if_neg hC, if_pos hg, consume_fst]
      exact hn
    by_cases hAa : l.tag = 'A' ∨ l.tag = 'a'
    · cases first with
      | true =>
        obtain ⟨n, hn⟩ := ih cid cur false
        refine ⟨n, ?_⟩
        simp only [all_names_loop, if_neg hS, if_neg hC, if_neg hg, if_pos hAa, if_pos rfl,
          consume_fst]
        exact hn
      | false =>
        refine ⟨0, ?_⟩
        simp only [all_names_loop, if_neg hS, if_neg hC, if_neg hg, if_pos hAa]
        rfl
    · obtain ⟨n, hn⟩ := ih cid cur false
      refine ⟨n, ?_⟩
      simp only [all_names_loop, if_neg hS, if_neg hC, if_neg hg, if_neg hAa, consume_fst]
      exact hn

/-- The `get_all_contig_offsets` loop hands out consecutive IDs from its
starting counter, never resetting. -/
theorem all_offsets_loop_keys (ls : List Line) :
    ∀ (cid spos : Int) (first : Bool),
      ∃ n, (all_offsets_loop ls cid spos first).map Prod.fst = consecIds cid n := by
  induction ls with
  | nil => exact fun cid spos first => ⟨0, rfl⟩
  | cons l rest ih =>
    intro cid spos first
    by_cases hS : l.tag = 'S'
    · obtain ⟨n, hn⟩ := ih cid 0 false
      refine ⟨n, ?_⟩
      simp only [all_offsets_loop, if_pos hS]
      exact hn
    by_cases hG : l.tag = 'G'
    · obtain ⟨n, hn⟩ := ih cid (spos + l.intField) false
      refine ⟨n, ?_⟩
      simp only [all_offsets_loop, if_neg hS, if_pos hG]
      exact hn
    by_cases hC : l.tag = 'C'
    · obtain ⟨n, hn⟩ := ih (cid + 1) (spos + l.intField) false
      refine ⟨n + 1, ?_⟩
      simp only [all_offsets_loop, if_neg hS, if_neg hG, if_pos hC]
      rw [List.map_cons, hn, consecIds_cons]
    by_cases hg : l.tag = 'g'
    · cases first with
      | true =>
        obtain ⟨n, hn⟩ := ih cid spos false
        refine ⟨n, ?_⟩
        simp only [all_offsets_loop, if_neg hS, if_neg hG, if_neg hC, if_pos hg, if_pos rfl]
        exact hn
      | false =>
        obtain ⟨n, hn⟩ := ih cid 0 false
        refine ⟨n, ?_⟩
        simp only [all_offsets_loop, if_neg hS, if_neg hG, if_neg hC, if_pos hg,
          Bool.false_eq_true, if_false]
        exact hn
    by_cases hA : l.tag = 'A'
    · cases first with
      | true =>
        obtain ⟨n, hn⟩ := ih cid spos false
        refine ⟨n, ?_⟩
        simp only [all_offsets_loop, if_neg hS, if_neg hG, if_neg hC, if_neg hg, if_pos hA,
          if_pos rfl]
        exact hn
      | false =>
        refine ⟨0, ?_⟩
        simp only [all_offsets_loop, if_neg hS, if_neg hG, if_neg hC, if_neg hg, if_pos hA]
        rfl
    · obtain ⟨n, hn⟩ := ih cid spos false
      refine ⟨n, ?_⟩
      simp only [all_offsets_loop, if_neg hS, if_neg hG, if_neg hC, if_neg hg, if_neg hA]
      exact hn

/-- The empty run of consecutive IDs. -/
theorem consecIds_zero (b : Int) : consecIds b 0 = [] := rfl

/-- The `get_all_sequence_lengths` loop keys its map with consecutive
IDs continuing the collected scaffold, never resetting: starting from
contig counter `b + k` with the pending scaffold holding IDs
`b..b+k-1`, the final map is keyed by a consecutive run from `b`. -/
theorem all_lengths_loop_keys (ls : List Line) :
    ∀ (b : Int) (k : Nat) (len : Int) (first : Bool),
      ∃ n, (all_lengths_loop ls (b + (k : Int)) len (consecIds b k) first).map Prod.fst =
        consecIds b n := by
  induction ls with
  | nil => exact fun b k len first => ⟨k, flush_lengths_keys (consecIds b k) len⟩
  | cons l rest ih =>
    intro b k len first
    by_cases hS : l.tag = 'S'
    · obtain ⟨m, hm⟩ : ∃ m,
          (all_lengths_loop rest (b + (k : Int)) 0 [] false).map Prod.fst =
            consecIds (b + (k : Int)) m := by
        simpa [consecIds_zero] using ih (b + (k : Int)) 0 0 false
      refine ⟨k + m, ?_⟩
      simp only [all_lengths_loop, if_pos hS, List.map_append, flush_lengths_keys, hm,
        consecIds_append]
    by_cases hG : l.tag = 'G'
    · obtain ⟨n, hn⟩ := ih b k (len + l.intField) false
      refine ⟨n, ?_⟩
      simp only [all_lengths_loop, if_neg hS, if_pos hG]
      exact hn
    by_cases hC : l.tag = 'C'
    · obtain ⟨m, hm⟩ := ih b (k + 1) (len + l.intField) false
      rw [consecIds_snoc] at hm
      rw [show b + ((k + 1 : Nat) : Int) = b + (k : Int) + 1 by push_cast; ring] at hm
      refine ⟨m, ?_⟩
      simp only [all_lengths_loop, if_neg hS, if_neg hG, if_pos hC]
      exact hm
    by_cases hg : l.tag = 'g'
    · cases first with
      | true =>
        obtain ⟨n, hn⟩ := ih b k len false
        refine ⟨n, ?_⟩
        simp only [all_lengths_loop, if_neg hS, if_neg hG, if_neg hC, if_pos hg, if_pos rfl]
        exact hn
      | false =>
        obtain ⟨m, hm⟩ : ∃ m,
            (all_lengths_loop rest (b + (k : Int)) 0 [] false).map Prod.fst =
              consecIds (b + (k : Int)) m := by
          simpa [consecIds_zero] using ih (b + (k : Int)) 0 0 false
        refine ⟨k + m, ?_⟩
        simp only [all_lengths_loop, if_neg hS, if_neg hG, if_neg hC, if_pos hg,
          Bool.false_eq_true, if_false, List.map_append, flush_lengths_keys, hm,
          consecIds_append]
    by_cases hAa : l.tag = 'A' ∨ l.tag = 'a'
    · cases first with
      | true =>
        obtain ⟨n, hn⟩ := ih b k len false
        refine ⟨n, ?_⟩
        simp only [all_lengths_loop, if_neg hS, if_neg hG, if_neg hC, if_neg hg, if_pos hAa,
          if_pos rfl]
        exact hn
      | false =>
        refine ⟨k, ?_⟩
        simp only [all_lengths_loop, if_neg hS, if_neg hG, if_neg hC, if_neg hg, if_pos hAa,
          Bool.false_eq_true, if_false]
        exact flush_lengths_keys (consecIds b k) len
    · obtain ⟨n, hn⟩ := ih b k len false
      refine ⟨n, ?_⟩
      simp only [all_lengths_loop, if_neg hS, if_neg hG, if_neg hC, if_neg hg, if_neg hAa]
      exact hn

/-- The first component of an option-directed pair is the same in both
branches. -/
theorem fst_match_option {α : Type} (x : Option Nat) (m : α) (c : Cursor)
    (g : Nat → Cursor) :
    (match x with
      | none => (m, c)
      | some k => (m, g k)).1 = m := by
  cases x <;> rfl

/-- The map component of `get_all_sequence_names` does not depend on the
position-restoring goto. -/
theorem get_all_names_fst (file : List Line) (st : Cursor) :
    (get_all_sequence_names file st).1 =
      match gotoIndex file 'g' 1 with
      | none => []
      | some j => (all_names_loop (file.drop j) 0 "" true).1 := by
  unfold get_all_sequence_names
  cases gotoIndex file 'g' 1 with
  | none => rfl
  | some j => exact fst_match_option _ _ _ _

/-- `get_all_sequence_names` assigns the consecutive global IDs
`0..n-1`. -/
theorem get_all_names_keys (file : List Line) (st : Cursor) :
    ∃ n, ((get_all_sequence_names file st).1).map Prod.fst = consecIds 0 n := by
  rw [get_all_names_fst]
  cases hg : gotoIndex file 'g' 1 with
  | none => exact ⟨0, rfl⟩
  | some j => simpa using all_names_loop_keys (file.drop j) 0 "" true

/-- `get_all_sequence_lengths` assigns the consecutive global IDs
`0..n-1`. -/
theorem get_all_lengths_keys (file : List Line) :
    ∃ n, (get_all_sequence_lengths file).map Prod.fst = consecIds 0 n := by
  unfold get_all_sequence_lengths
  cases hg : gotoIndex file 'g' 1 with
  | none => exact ⟨0, rfl⟩
  | some j =>
    have h := all_lengths_loop_keys (file.drop j) 0 0 0 true
    simpa [consecIds_zero] using h

/-- `get_all_contig_offsets` assigns the consecutive global IDs
`0..n-1`. -/
theorem get_all_offsets_keys (file : List Line) :
    ∃ n, (get_all_contig_offsets file).map Prod.fst = consecIds 0 n := by
  unfold get_all_contig_offsets
  cases hg : gotoIndex file 'g' 1 with
  | none => exact ⟨0, rfl⟩
  | some j => simpa using all_offsets_loop_keys (file.drop j) 0 0 true

/-- Every group the metadata loop emits has its names map keyed by a
consecutive run of IDs starting at 0, because the per-group counter and
the in-progress maps are reset together at every group boundary. -/
theorem meta_loop_group_keys (ls : List Line) :
    ∀ (k : Nat) (gnames : List (Int × String)) (glens : List (Int × Int))
      (goffs : List (Int × Int × Int)) (sname : String) (slen : Int)
      (scontigs : List Int) (spos : Int) (first : Bool),
      gnames.map Prod.fst = consecIds 0 k →
      ∀ grp ∈ meta_loop ls (k : Int) gnames glens goffs sname slen scontigs spos first,
        ∃ n, grp.1.map Prod.fst = consecIds 0 n := by
  induction ls with
  | nil =>
    intro k gnames glens goffs sname slen scontigs spos first hk grp hgrp
    simp only [meta_loop] at hgrp
    by_cases he : gnames.isEmpty
    · simp [he] at hgrp
    · simp only [he, Bool.false_eq_true, if_false, List.mem_singleton] at hgrp
      subst hgrp
      exact ⟨k, hk⟩
  | cons l rest ih =>
    intro k gnames glens goffs sname slen scontigs spos first hk grp hgrp
    by_cases hg : l.tag = 'g'
    · cases first with
      | true =>
        simp only [meta_loop, if_pos hg, if_pos rfl] at hgrp
        exact ih k gnames glens goffs sname slen scontigs spos false hk grp hgrp
      | false =>
        simp only [meta_loop, if_pos hg, Bool.false_eq_true, if_false,
          List.mem_cons] at hgrp
        rcases hgrp with hgrp | hgrp
        · subst hgrp
          exact ⟨k, hk⟩
        · exact ih 0 [] [] [] sname 0 [] 0 false rfl grp hgrp
    by_cases hS : l.tag = 'S'
    · simp only [meta_loop, if_neg hg, if_pos hS] at hgrp
      exact ih k gnames (glens ++ flush_lengths scontigs slen) goffs
        (trim_sequence_name l.strField) 0 [] 0 false hk grp hgrp
    by_cases hG : l.tag = 'G'
    · simp only [meta_loop, if_neg hg, if_neg hS, if_pos hG] at hgrp
      exact ih k gnames glens goffs sname (slen + l.intField) scontigs
        (spos + l.intField) false hk grp hgrp
    by_cases hC : l.tag = 'C'
    · simp only [meta_loop, if_neg hg, if_neg hS, if_neg hG, if_pos hC] at hgrp
      have hk2 : (gnames ++ [((k : Int), sname)]).map Prod.fst = consecIds 0 (k + 1) := by
        rw [List.map_append, hk, consecIds_snoc, zero_add]
        rfl
      have hcast : (((k + 1 : Nat)) : Int) = (k : Int) + 1 := by
        push_cast
        ring
      have h2 := ih (k + 1) (gnames ++ [((k : Int), sname)]) glens
        (goffs ++ [((k : Int), spos, l.intField)]) sname (slen + l.intField)
        (scontigs ++ [(k : Int)]) (spos + l.intField) false hk2 grp
      rw [hcast] at h2
      exact h2 hgrp
    by_cases hAa : l.tag = 'A' ∨ l.tag = 'a'
    · cases first with
      | true =>
        simp only [meta_loop, if_neg hg, if_neg hS, if_neg hG, if_neg hC, if_pos hAa,
          if_pos rfl] at hgrp
        exact ih k gnames glens goffs sname slen scontigs spos false hk grp hgrp
      | false =>
        simp only [meta_loop, if_neg hg, if_neg hS, if_neg hG, if_neg hC, if_pos hAa,
          Bool.false_eq_true, if_false] at hgrp
        by_cases he : gnames.isEmpty
        · simp [he] at hgrp
        · simp only [he, Bool.false_eq_true, if_false, List.mem_singleton] at hgrp
          subst hgrp
          exact ⟨k, hk⟩
    · simp only [meta_loop, if_neg hg, if_neg hS, if_neg hG, if_neg hC, if_neg hAa] at hgrp
      exact ih k gnames glens goffs sname slen scontigs spos false hk grp hgrp

/-- Every group of `get_all_groups_metadata` is keyed from 0. -/
theorem get_metadata_group_keys (file : List Line) :
    ∀ grp ∈ get_all_groups_metadata file, ∃ n, grp.1.map Prod.fst = consecIds 0 n := by
  intro grp hgrp
  unfold get_all_groups_metadata at hgrp
  cases hg : gotoIndex file 'g' 1 with
  | none => rw [hg] at hgrp; simp at hgrp
  | some j =>
    rw [hg] at hgrp
    simp only at hgrp
    exact meta_loop_group_keys (file.drop j) 0 [] [] [] "" 0 [] 0 true rfl grp hgrp

/-- C3 amended.  Every all-groups scanner except `get_all_groups_metadata`
assigns the consecutive global contig IDs `0..n-1` across all groups
without resetting at a `g` line; `get_all_groups_metadata` instead
resets its contig counter at every new group, so each emitted group's
maps are keyed by the group-local run `0..m-1`. -/
theorem c3_amended_global_ids_except_metadata (file : List Line) (st : Cursor) :
    (∃ n, ((get_all_sequence_names file st).1).map Prod.fst = consecIds 0 n) ∧
      (∃ n, (get_all_sequence_lengths file).map Prod.fst = consecIds 0 n) ∧
      (∃ n, (get_all_contig_offsets file).map Prod.fst = consecIds 0 n) ∧
      (∀ grp ∈ get_all_groups_metadata file, ∃ n, grp.1.map Prod.fst = consecIds 0 n) :=
  ⟨get_all_names_keys file st, get_all_lengths_keys file, get_all_offsets_keys file,
    get_metadata_group_keys file⟩

/-- A captured name is either the initial empty string or the
`trim_sequence_name` of some `S` line's string field of the file. -/
def trimmedFromS (file : List Line) (v : String) : Prop :=
  v = "" ∨ ∃ l, l ∈ file ∧ l.tag = 'S' ∧ v = trim_sequence_name l.strField

/-- A captured name is either the initial empty string or the raw,
untrimmed string field of some `S` line of the file. -/
def rawFromS (file : List Line) (v : String) : Prop :=
  v = "" ∨ ∃ l, l ∈ file ∧ l.tag = 'S' ∧ v = l.strField

/-- Values bound by the `get_group_sequence_names` loop are the carried
name or a trimmed `S` field of the scanned lines. -/
theorem group_names_loop_values (ls : List Line) :
    ∀ (cid : Int) (cur : String) (first : Bool) (kv : Int × String),
      kv ∈ group_names_loop ls cid cur first →
      kv.2 = cur ∨ ∃ l, l ∈ ls ∧ l.tag = 'S' ∧ kv.2 = trim_sequence_name l.strField := by
  induction ls with
  | nil =>
    intro cid cur first kv h
    simp [group_names_loop] at h
  | cons l rest ih =>
    intro cid cur first kv hkv
    by_cases hS : l.tag = 'S'
    · simp only [group_names_loop, if_pos hS] at hkv
      rcases ih cid (trim_sequence_name l.strField) false kv hkv with h | ⟨l2, hl2, hS2, hv⟩
      · exact Or.inr ⟨l, List.mem_cons_self l rest, hS, h⟩
      · exact Or.inr ⟨l2, List.mem_cons_of_mem l hl2, hS2, hv⟩
    by_cases hC : l.tag = 'C'
    · simp only [group_names_loop, if_neg hS, if_pos hC, List.mem_cons] at hkv
      rcases hkv with h | hkv
      · exact Or.inl (by rw [h])
      · rcases ih (cid + 1) cur false kv hkv with h | ⟨l2, hl2, hS2, hv⟩
        · exact Or.inl h
        · exact Or.inr ⟨l2, List.mem_cons_of_mem l hl2, hS2, hv⟩
    by_cases hgAa : l.tag = 'g' ∨ l.tag = 'A' ∨ l.tag = 'a'
    · cases first with
      | true =>
        simp only [group_names_loop, if_neg hS, if_neg hC, if_pos hgAa, if_pos rfl] at hkv
        rcases ih cid cur false kv hkv with h | ⟨l2, hl2, hS2, hv⟩
        · exact Or.inl h
        · exact Or.inr ⟨l2, List.mem_cons_of_mem l hl2, hS2, hv⟩
      | false =>
        simp only [group_names_loop, if_neg hS, if_neg hC, if_pos hgAa,
          Bool.false_eq_true, if_false] at hkv
        simp at hkv
    · simp only [group_names_loop, if_neg hS, if_neg hC, if_neg hgAa] at hkv
      rcases ih cid cur false kv hkv with h | ⟨l2, hl2, hS2, hv⟩
      · exact Or.inl h
      · exact Or.inr ⟨l2, List.mem_cons_of_mem l hl2, hS2, hv⟩

/-- Values bound by the `get_all_sequence_names` loop are the carried
name or a trimmed `S` field of the scanned lines. -/
theorem all_names_loop_values (ls : List Line) :
    ∀ (cid : Int) (cur : String) (first : Bool) (kv : Int × String),
      kv ∈ (all_names_loop ls cid cur first).1 →
      kv.2 = cur ∨ ∃ l, l ∈ ls ∧ l.tag = 'S' ∧ kv.2 = trim_sequence_name l.strField := by
  induction ls with
  | nil =>
    intro cid cur first kv h
    simp [all_names_loop] at h
  | cons l rest ih =>
    intro cid cur first kv hkv
    by_cases hS : l.tag = 'S'
    · simp only [all_names_loop, if_pos hS, consume_fst] at hkv
      rcases ih cid (trim_sequence_name l.strField) false kv hkv with h | ⟨l2, hl2, hS2, hv⟩
      · exact Or.inr ⟨l, List.mem_cons_self l rest, hS, h⟩
      · exact Or.inr ⟨l2, List.mem_cons_of_mem l hl2, hS2, hv⟩
    by_cases hC : l.tag = 'C'
    · simp only [all_names_loop, if_neg hS, if_pos hC, List.mem_cons] at hkv
      rcases hkv with h | hkv
      · exact Or.inl (by rw [h])
      · rcases ih (cid + 1) cur false kv hkv with h | ⟨l2, hl2, hS2, hv⟩
        · exact Or.inl h
        · exact Or.inr ⟨l2, List.mem_cons_of_mem l hl2, hS2, hv⟩
    by_cases hg : l.tag = 'g'
    · simp only [all_names_loop, if_neg hS, if_neg hC, if_pos hg, consume_fst] at hkv
      rcases ih cid cur false kv hkv with h | ⟨l2, hl2, hS2, hv⟩
      · exact Or.inl h
      · exact Or.inr ⟨l2, List.mem_cons_of_mem l hl2, hS2, hv⟩
    by_cases hAa : l.tag = 'A' ∨ l.tag = 'a'
    · cases first with
      | true =>
        simp only [all_names_loop, if_neg hS, if_neg hC, if_neg hg, if_pos hAa, if_pos rfl,
          consume_fst] at hkv
        rcases ih cid cur false kv hkv with h | ⟨l2, hl2, hS2, hv⟩
        · exact Or.inl h
        · exact Or.inr ⟨l2, List.mem_cons_of_mem l hl2, hS2, hv⟩
      | false =>
        simp only [all_names_loop, if_neg hS, if_neg hC, if_neg hg, if_pos hAa,
          Bool.false_eq_true, if_false] at hkv
        simp at hkv
    · simp only [all_names_loop, if_neg hS, if_neg hC, if_neg hg, if_neg hAa,
        consume_fst] at hkv
      rcases ih cid cur false kv hkv with h | ⟨l2, hl2, hS2, hv⟩
      · exact Or.inl h
      · exact Or.inr ⟨l2, List.mem_cons_of_mem l hl2, hS2, hv⟩

/-- The name `get_sequence_name` returns is the carried name or the raw,
untrimmed `S` field of some scanned line. -/
theorem seq_name_loop_values (ls : List Line) :
    ∀ (seqId cid : Int) (cur : String) (first : Bool) (v : String),
      seq_name_loop ls seqId cid cur first = some v →
      v = cur ∨ ∃ l, l ∈ ls ∧ l.tag = 'S' ∧ v = l.strField := by
  induction ls with
  | nil =>
    intro seqId cid cur first v h
    simp [seq_name_loop] at h
  | cons l rest ih =>
    intro seqId cid cur first v hv
    by_cases hS : l.tag = 'S'
    · simp only [seq_name_loop, if_pos hS] at hv
      rcases ih seqId cid l.strField false v hv with h | ⟨l2, hl2, hS2, hv2⟩
      · exact Or.inr ⟨l, List.mem_cons_self l rest, hS, h⟩
      · exact Or.inr ⟨l2, List.mem_cons_of_mem l hl2, hS2, hv2⟩
    by_cases hC : l.tag = 'C'
    · simp only [seq_name_loop, if_neg hS, if_pos hC] at hv
      by_cases heq : cid = seqId
      · rw [if_pos heq, Option.some.injEq] at hv
        exact Or.inl hv.symm
      · rw [if_neg heq] at hv
        rcases ih seqId (cid + 1) cur false v hv with h | ⟨l2, hl2, hS2, hv2⟩
        · exact Or.inl h
        · exact Or.inr ⟨l2, List.mem_cons_of_mem l hl2, hS2, hv2⟩
    by_cases hgAa : l.tag = 'g' ∨ l.tag = 'A' ∨ l.tag = 'a'
    · cases first with
      | true =>
        simp only [seq_name_loop, if_neg hS, if_neg hC, if_pos hgAa, if_pos rfl] at hv
        rcases ih seqId cid cur false v hv with h | ⟨l2, hl2, hS2, hv2⟩
        · exact Or.inl h
        · exact Or.inr ⟨l2, List.mem_cons_of_mem l hl2, hS2, hv2⟩
      | false =>
        simp only [seq_name_loop, if_neg hS, if_neg hC, if_pos hgAa,
          Bool.false_eq_true, if_false] at hv
        cases hv
    · simp only [seq_name_loop, if_neg hS, if_neg hC, if_neg hgAa] at hv
      rcases ih seqId cid cur false v hv with h | ⟨l2, hl2, hS2, hv2⟩
      · exact Or.inl h
      · exact Or.inr ⟨l2, List.mem_cons_of_mem l hl2, hS2, hv2⟩

/-- Values bound in the names map of `read_gdb_metadata` are the carried
name or a trimmed `S` field of the scanned lines. -/
theorem gdb_loop_name_values (ls : List Line) :
    ∀ (cid spos : Int) (sname : String) (slen : Int) (contigs : List Int)
      (kv : Int × String),
      kv ∈ (gdb_loop ls cid spos sname slen contigs).1 →
      kv.2 = sname ∨ ∃ l, l ∈ ls ∧ l.tag = 'S' ∧ kv.2 = trim_sequence_name l.strField := by
  induction ls with
  | nil =>
    intro cid spos sname slen contigs kv h
    simp [gdb_loop] at h
  | cons l rest ih =>
    intro cid spos sname slen contigs kv hkv
    by_cases hS : l.tag = 'S'
    · simp only [gdb_loop, if_pos hS] at hkv
      rcases ih cid 0 (trim_sequence_name l.strField) 0 [] kv hkv with h | ⟨l2, hl2, hS2, hv⟩
      · exact Or.inr ⟨l, List.mem_cons_self l rest, hS, h⟩
      · exact Or.inr ⟨l2, List.mem_cons_of_mem l hl2, hS2, hv⟩
    by_cases hG : l.tag = 'G'
    · simp only [gdb_loop, if_neg hS, if_pos hG] at hkv
      rcases ih cid (spos + l.intField) sname (slen + l.intField) contigs kv hkv with
        h | ⟨l2, hl2, hS2, hv⟩
      · exact Or.inl h
      · exact Or.inr ⟨l2, List.mem_cons_of_mem l hl2, hS2, hv⟩
    by_cases hC : l.tag = 'C'
    · simp only [gdb_loop, if_neg hS, if_neg hG, if_pos hC, List.mem_cons] at hkv
      rcases hkv with h | hkv
      · exact Or.inl (by rw [h])
      · rcases ih (cid + 1) (spos + l.intField) sname (slen + l.intField)
            (contigs ++ [cid]) kv hkv with h | ⟨l2, hl2, hS2, hv⟩
        · exact Or.inl h
        · exact Or.inr ⟨l2, List.mem_cons_of_mem l hl2, hS2, hv⟩
    · simp only [gdb_loop, if_neg hS, if_neg hG, if_neg hC] at hkv
      rcases ih cid spos sname slen contigs kv hkv with h | ⟨l2, hl2, hS2, hv⟩
      · exact Or.inl h
      · exact Or.inr ⟨l2, List.mem_cons_of_mem l hl2, hS2, hv⟩

/-- Values bound in any names map `get_all_groups_metadata` emits are
inherited bindings, the carried scaffold name, or a trimmed `S` field of
the scanned lines. -/
theorem meta_loop_name_values (ls : List Line) :
    ∀ (cid : Int) (gnames : List (Int × String)) (glens : List (Int × Int))
      (goffs : List (Int × Int × Int)) (sname : String) (slen : Int)
      (scontigs : List Int) (spos : Int) (first : Bool) (grp : GroupMaps)
      (kv : Int × String),
      grp ∈ meta_loop ls cid gnames glens goffs sname slen scontigs spos first →
      kv ∈ grp.1 →
      kv ∈ gnames ∨ kv.2 = sname ∨
        ∃ l, l ∈ ls ∧ l.tag = 'S' ∧ kv.2 = trim_sequence_name l.strField := by
  induction ls with
  | nil =>
    intro cid gnames glens goffs sname slen scontigs spos first grp kv hgrp hkv
    simp only [meta_loop] at hgrp
    by_cases he : gnames.isEmpty
    · simp [he] at hgrp
    · simp only [he, Bool.false_eq_true, if_false, List.mem_singleton] at hgrp
      subst hgrp
      exact Or.inl hkv
  | cons l rest ih =>
    intro cid gnames glens goffs sname slen scontigs spos first grp kv hgrp hkv
    by_cases hg : l.tag = 'g'
    · cases first with
      | true =>
        simp only [meta_loop, if_pos hg, if_pos rfl] at hgrp
        rcases ih cid gnames glens goffs sname slen scontigs spos false grp kv hgrp hkv with
          h | h | ⟨l2, hl2, hS2, hv⟩
        · exact Or.inl h
        · exact Or.inr (Or.inl h)
        · exact Or.inr (Or.inr ⟨l2, List.mem_cons_of_mem l hl2, hS2, hv⟩)
      | false =>
        simp only [meta_loop, if_pos hg, Bool.false_eq_true, if_false,
          List.mem_cons] at hgrp
        rcases hgrp with hgrp | hgrp
        · subst hgrp
          exact Or.inl hkv
        · rcases ih 0 [] [] [] sname 0 [] 0 false grp kv hgrp hkv with
            h | h | ⟨l2, hl2, hS2, hv⟩
          · simp at h
          · exact Or.inr (Or.inl h)
          · exact Or.inr (Or.inr ⟨l2, List.mem_cons_of_mem l hl2, hS2, hv⟩)
    by_cases hS : l.tag = 'S'
    · simp only [meta_loop, if_neg hg, if_pos hS] at hgrp
      rcases ih cid gnames (glens ++ flush_lengths scontigs slen) goffs
          (trim_sequence_name l.strField) 0 [] 0 false grp kv hgrp hkv with
        h | h | ⟨l2, hl2, hS2, hv⟩
      · exact Or.inl h
      · exact Or.inr (Or.inr ⟨l, List.mem_cons_self l rest, hS, h⟩)
      · exact Or.inr (Or.inr ⟨l2, List.mem_cons_of_mem l hl2, hS2, hv⟩)
    by_cases hG : l.tag = 'G'
    · simp only [meta_loop, if_neg hg, if_neg hS, if_pos hG] at hgrp
      rcases ih cid gnames glens goffs sname (slen + l.intField) scontigs
          (spos + l.intField) false grp kv hgrp hkv with h | h | ⟨l2, hl2, hS2, hv⟩
      · exact Or.inl h
      · exact Or.inr (Or.inl h)
      · exact Or.inr (Or.inr ⟨l2, List.mem_cons_of_mem l hl2, hS2, hv⟩)
    by_cases hC : l.tag = 'C'
    · simp only [meta_loop, if_neg hg, if_neg hS, if_neg hG, if_pos hC] at hgrp
      rcases ih (cid + 1) (gnames ++ [(cid, sname)]) glens
          (goffs ++ [(cid, spos, l.intField)]) sname (slen + l.intField)
          (scontigs ++ [cid]) (spos + l.intField) false grp kv hgrp hkv with
        h | h | ⟨l2, hl2, hS2, hv⟩
      · rcases List.mem_append.mp h with h2 | h2
        · exact Or.inl h2
        · rw [List.mem_singleton] at h2
          exact Or.inr (Or.inl (by rw [h2]))
      · exact Or.inr (Or.inl h)
      · exact Or.inr (Or.inr ⟨l2, List.mem_cons_of_mem l hl2, hS2, hv⟩)
    by_cases hAa : l.tag = 'A' ∨ l.tag = 'a'
    · cases first with
      | true =>
        simp only [meta_loop, if_neg hg, if_neg hS, if_neg hG, if_neg hC, if_pos hAa,
          if_pos rfl] at hgrp
        rcases ih cid gnames glens goffs sname slen scontigs spos false grp kv hgrp hkv with
          h | h | ⟨l2, hl2, hS2, hv⟩
        · exact Or.inl h
        · exact Or.inr (Or.inl h)
        · exact Or.inr (Or.inr ⟨l2, List.mem_cons_of_mem l hl2, hS2, hv⟩)
      | false =>
        simp only [meta_loop, if_neg hg, if_neg hS, if_neg hG, if_neg hC, if_pos hAa,
          Bool.false_eq_true, if_false] at hgrp
        by_cases he : gnames.isEmpty
        · simp [he] at hgrp
        · simp only [he, Bool.false_eq_true, if_false, List.mem_singleton] at hgrp
          subst hgrp
          exact Or.inl hkv
    · simp only [meta_loop, if_neg hg, if_neg hS, if_neg hG, if_neg hC, if_neg hAa] at hgrp
      rcases ih cid gnames glens goffs sname slen scontigs spos false grp kv hgrp hkv with
        h | h | ⟨l2, hl2, hS2, hv⟩
      · exact Or.inl h
      · exact Or.inr (Or.inl h)
      · exact Or.inr (Or.inr ⟨l2, List.mem_cons_of_mem l hl2, hS2, hv⟩)

/-- C4 amended.  The scanner operations `get_all_sequence_names`,
`get_group_sequence_names`, `get_all_groups_metadata` and
`read_gdb_metadata` associate contigs only with names produced by
`trim_sequence_name` — the `S` line's string field cut to its first
whitespace-delimited token — while `get_sequence_name` captures the `S`
line's string field unmodified, without trimming. -/
theorem c4_amended_trimming (file : List Line) (st : Cursor) (groupNum seqId : Int) :
    (∀ kv ∈ (get_all_sequence_names file st).1, trimmedFromS file kv.2) ∧
      (∀ kv ∈ get_group_sequence_names file groupNum, trimmedFromS file kv.2) ∧
      (∀ grp ∈ get_all_groups_metadata file, ∀ kv ∈ grp.1, trimmedFromS file kv.2) ∧
      (∀ kv ∈ (read_gdb_metadata file).1, trimmedFromS file kv.2) ∧
      (∀ v, get_sequence_name file seqId = some v → rawFromS file v) := by
  refine ⟨?_, ?_, ?_, ?_, ?_⟩
  · intro kv hkv
    rw [get_all_names_fst] at hkv
    cases hg : gotoIndex file 'g' 1 with
    | none => rw [hg] at hkv; simp at hkv
    | some j =>
      rw [hg] at hkv
      simp only at hkv
      rcases all_names_loop_values (file.drop j) 0 "" true kv hkv with h | ⟨l2, hl2, hS2, hv⟩
      · exact Or.inl h
      · exact Or.inr ⟨l2, List.drop_subset j file hl2, hS2, hv⟩
  · intro kv hkv
    unfold get_group_sequence_names at hkv
    cases hg : gotoIndex file 'g' groupNum with
    | none => rw [hg] at hkv; simp at hkv
    | some j =>
      rw [hg] at hkv
      simp only at hkv
      rcases group_names_loop_values (file.drop j) (starting_contig_id file groupNum) ""
          true kv hkv with h | ⟨l2, hl2, hS2, hv⟩
      · exact Or.inl h
      · exact Or.inr ⟨l2, List.drop_subset j file hl2, hS2, hv⟩
  · intro grp hgrp kv hkv
    unfold get_all_groups_metadata at hgrp
    cases hg : gotoIndex file 'g' 1 with
    | none => rw [hg] at hgrp; simp at hgrp
    | some j =>
      rw [hg] at hgrp
      simp only at hgrp
      rcases meta_loop_name_values (file.drop j) 0 [] [] [] "" 0 [] 0 true grp kv
          hgrp hkv with h | h | ⟨l2, hl2, hS2, hv⟩
      · simp at h
      · exact Or.inl h
      · exact Or.inr ⟨l2, List.drop_subset j file hl2, hS2, hv⟩
  · intro kv hkv
    unfold read_gdb_metadata at hkv
    rcases gdb_loop_name_values file 0 0 "" 0 [] kv hkv with h | ⟨l2, hl2, hS2, hv⟩
    · exact Or.inl h
    · exact Or.inr ⟨l2, hl2, hS2, hv⟩
  · intro v hv
    unfold get_sequence_name at hv
    cases hg : gotoIndex file 'g' 1 with
    | none => rw [hg] at hv; cases hv
    | some j =>
      rw [hg] at hv
      simp only at hv
      rcases seq_name_loop_values (file.drop j) seqId 0 "" true v hv with
        h | ⟨l2, hl2, hS2, hv2⟩
      · exact Or.inl h
      · exact Or.inr ⟨l2, List.drop_subset j file hl2, hS2, hv2⟩

/-- C4 amended, instantiated: on `descFile` the trimming operations map
contig 0 to the trimmed token while `get_sequence_name` keeps the whole
field. -/
theorem c4_amended_trimming_witness :
    (∀ kv ∈ get_group_sequence_names descFile 1, trimmedFromS descFile kv.2) ∧
      (∀ v, get_sequence_name descFile 0 = some v → rawFromS descFile v) :=
  ⟨(c4_amended_trimming descFile ⟨0, 'g'⟩ 1 0).2.1,
    (c4_amended_trimming descFile ⟨0, 'g'⟩ 1 0).2.2.2.2⟩

end OneCodeRS
